import Mathlib

/-!
# Verification of the polar-plant EC dashboard (`src/main.py`)

A shallow embedding of the data-loading and aggregation core of the
dashboard: the Unicode name normalizer, the file resolver, the two dataset
loaders (per-school environment CSVs and the consolidated growth
spreadsheet), the startup fail-fast check, the overview table and the
per-school growth summary with its extremum selection.

Text is modelled as a list of Unicode codepoints.  `unicodedata.normalize`
is embedded on the fragment the program's data actually uses — precomposed
Hangul syllables, conjoining jamo and ASCII — where canonical composition
and decomposition are fully algorithmic (UAX #15, Hangul composition);
every other codepoint is normalization-inert and passes through unchanged.
Numeric cell values are modelled as rationals; a pandas `NaN` aggregate
(mean of an empty column) is modelled as `Option.none`; an exception
raised by a parse call is modelled as `Option.none` for that call's result.
-/

set_option maxRecDepth 4000

/-- A text value: its list of Unicode codepoints. -/
abbrev Str := List Nat

/-! ## Hangul-algorithmic Unicode normalization (`unicodedata.normalize`) -/

/-- A leading-consonant (choseong) conjoining jamo, U+1100–U+1112. -/
def isL (c : Nat) : Prop := 4352 ≤ c ∧ c ≤ 4370

/-- A vowel (jungseong) conjoining jamo, U+1161–U+1175. -/
def isV (c : Nat) : Prop := 4449 ≤ c ∧ c ≤ 4469

/-- A trailing-consonant (jongseong) conjoining jamo, U+11A8–U+11C2. -/
def isT (c : Nat) : Prop := 4520 ≤ c ∧ c ≤ 4546

/-- A precomposed Hangul syllable without a trailing consonant:
U+AC00–U+D7A3 with trailing index 0. -/
def isLV (c : Nat) : Prop := (44032 ≤ c ∧ c ≤ 55203) ∧ (c - 44032) % 28 = 0

instance (c : Nat) : Decidable (isL c) := by unfold isL; infer_instance
instance (c : Nat) : Decidable (isV c) := by unfold isV; infer_instance
instance (c : Nat) : Decidable (isT c) := by unfold isT; infer_instance
instance (c : Nat) : Decidable (isLV c) := by unfold isLV; infer_instance

/-- Canonical composition of a leading jamo and a vowel jamo into an
LV syllable (UAX #15 Hangul arithmetic). -/
def composeLV (l v : Nat) : Nat := 44032 + (l - 4352) * 588 + (v - 4449) * 28

/-- Canonical composition of an LV syllable and a trailing jamo. -/
def composeLVT (s t : Nat) : Nat := s + (t - 4519)

/-- The canonical-composition scan: `pending` is the last character read,
still open for composition with the next one. -/
def nfcGo (pending : Nat) : Str → Str
  | [] => [pending]
  | c :: rest =>
    if isL pending ∧ isV c then nfcGo (composeLV pending c) rest
    else if isLV pending ∧ isT c then nfcGo (composeLVT pending c) rest
    else pending :: nfcGo c rest

/-- `unicodedata.normalize("NFC", ·)` on the Hangul + inert fragment. -/
def nfc : Str → Str
  | [] => []
  | c :: rest => nfcGo c rest

/-- Canonical decomposition of one codepoint: a precomposed Hangul syllable
splits into its two or three conjoining jamo, everything else is inert. -/
def decompChar (c : Nat) : Str :=
  if 44032 ≤ c ∧ c ≤ 55203 then
    let s := c - 44032
    let l := 4352 + s / 588
    let v := 4449 + s % 588 / 28
    let t := s % 28
    if t = 0 then [l, v] else [l, v, 4519 + t]
  else [c]

/-- `unicodedata.normalize("NFD", ·)` on the Hangul + inert fragment. -/
def nfd (s : Str) : Str := s.flatMap decompChar

/-- `normalize_text` (src/main.py:35-37): returns the single NFC form of
its input. -/
def normalize_text (text : Str) : Str := nfc text

/-- `find_file_by_normalized_name` (src/main.py:39-44): the directory is
its list of file names; the first name whose NFC form equals the target's
NFC form is returned, else `none`. -/
def find_file_by_normalized_name (directory : List Str) (target_name : Str) : Option Str :=
  let target_nfc := normalize_text target_name
  directory.find? (fun f => decide (normalize_text f = target_nfc))

/-! ## Data model

Rows of the two kinds of tables (src/main.py reads per-school environment
CSVs with columns time/temperature/humidity/ph/ec, and growth sheets with
the columns it uses: 잎 수(장), 지상부 길이(mm), 생중량(g)). -/

/-- One time-sampled environment reading. -/
structure EnvRecord where
  time : ℚ
  temperature : ℚ
  humidity : ℚ
  ph : ℚ
  ec : ℚ
deriving DecidableEq

/-- One measured plant specimen. -/
structure GrowthRecord where
  leafCount : ℚ
  shootLength : ℚ
  freshWeight : ℚ
deriving DecidableEq

/-- A loaded environment table. -/
abbrev EnvDf := List EnvRecord

/-- A loaded growth sheet. -/
abbrev GrowthDf := List GrowthRecord

/-- A Python `dict` keyed by text, as an insertion-ordered association
list. -/
abbrev Dict (α : Type) := List (Str × α)

/-- `d[k] = v` on a Python dict: an existing key keeps its position and
gets the new value, a new key is appended. -/
def dictInsert {α : Type} : Dict α → Str → α → Dict α
  | [], k, v => [(k, v)]
  | (k', v') :: rest, k, v =>
    if k' = k then (k, v) :: rest else (k', v') :: dictInsert rest k v

/-- `d.get(k)` on a Python dict. -/
def dictLookup {α : Type} (d : Dict α) (k : Str) : Option α :=
  (d.find? (fun p => decide (p.1 = k))).map Prod.snd

/-- One directory entry of `data/`, with what the pandas parse calls would
yield on it: `asCsv` is `pd.read_csv`'s outcome (`none` = raises), `asXlsx`
is `pd.ExcelFile`'s outcome (`none` = raises; otherwise the sheet list,
each sheet with `pd.read_excel`'s outcome on it, `none` = raises). -/
structure DirFile where
  stem : Str
  suffix : Str
  asCsv : Option EnvDf
  asXlsx : Option (List (Str × Option GrowthDf))

/-- `str.lower` on one codepoint (ASCII, all the suffixes use). -/
def toLowerCp (c : Nat) : Nat := if 65 ≤ c ∧ c ≤ 90 then c + 32 else c

/-- `str.lower` on a text value. -/
def lowerStr (s : Str) : Str := s.map toLowerCp

/-- The codepoints of `".csv"`. -/
def csvExt : Str := [46, 99, 115, 118]

/-- The codepoints of `".xlsx"`. -/
def xlsxExt : Str := [46, 120, 108, 115, 120]

/-- `file.suffix.lower() == ".csv"`. -/
def isCsvFile (f : DirFile) : Bool := decide (lowerStr f.suffix = csvExt)

/-- `file.suffix.lower() == ".xlsx"`. -/
def isXlsxFile (f : DirFile) : Bool := decide (lowerStr f.suffix = xlsxExt)

/-- `file.name`: the stem with the suffix. -/
def fileName (f : DirFile) : Str := f.stem ++ f.suffix

/-- One non-overlapping left-to-right pass of Python
`s.replace(pat, "")`, with fuel (`s.length` steps always suffice). -/
def stripAllGo (pat : Str) : Nat → Str → Str
  | _, [] => []
  | 0, s => s
  | fuel + 1, c :: rest =>
    if pat.isPrefixOf (c :: rest) then stripAllGo pat fuel (List.drop pat.length (c :: rest))
    else c :: stripAllGo pat fuel rest

/-- Python `s.replace(pat, "")`. -/
def stripAll (pat s : Str) : Str := stripAllGo pat s.length s

/-- The codepoints of `"_환경데이터"` (the environment-data file marker). -/
def envMarker : Str := [95, 54872, 44221, 45936, 51060, 53552]

/-- The dict key for an environment file:
`normalize_text(file.stem).replace("_환경데이터", "")` (src/main.py:56). -/
def envKey (f : DirFile) : Str := stripAll envMarker (normalize_text f.stem)

/-! ## Dataset loaders -/

/-- The loop of `load_environment_data` (src/main.py:50-60): every `.csv`
file is read; a successful parse is keyed into the dict, a raising parse is
caught and an error for that one file is recorded; other files are
skipped. -/
def envLoadGo (acc : Dict EnvDf) (errs : List Str) : List DirFile → Dict EnvDf × List Str
  | [] => (acc, errs)
  | f :: rest =>
    if isCsvFile f then
      match f.asCsv with
      | some df => envLoadGo (dictInsert acc (envKey f) df) errs rest
      | none => envLoadGo acc (errs ++ [fileName f]) rest
    else envLoadGo acc errs rest

/-- `load_environment_data` (src/main.py:49-60): the loaded dict together
with the file names reported by `st.error`. -/
def load_environment_data (files : List DirFile) : Dict EnvDf × List Str :=
  envLoadGo [] [] files

/-- The sheet loop of `load_growth_data` (src/main.py:74-79) inside its
`try`: each sheet is read and keyed by its normalized name; the first
raising read aborts the whole call, which returns `None`. -/
def readSheetsGo (acc : Dict GrowthDf) : List (Str × Option GrowthDf) → Option (Dict GrowthDf)
  | [] => some acc
  | (name, df?) :: rest =>
    match df? with
    | none => none
    | some df => readSheetsGo (dictInsert acc (normalize_text name) df) rest

/-- `load_growth_data` (src/main.py:62-81): the first `.xlsx` file of the
directory is opened; no such file, a raising `pd.ExcelFile`, or any raising
sheet read yields `None`. -/
def load_growth_data (files : List DirFile) : Option (Dict GrowthDf) :=
  match files.find? isXlsxFile with
  | none => none
  | some f =>
    match f.asXlsx with
    | none => none
    | some sheets => readSheetsGo [] sheets

/-- The startup check (src/main.py:83-89): `none` models
`st.error(...); st.stop()` — an error message is shown and nothing further
renders; `some` carries the two datasets the dashboard proceeds with. -/
def startup (files : List DirFile) : Option (Dict EnvDf × Dict GrowthDf) :=
  let env_data := (load_environment_data files).1
  match load_growth_data files with
  | none => none
  | some growth_data => if env_data = [] then none else some (env_data, growth_data)

/-! ## Configuration and aggregation -/

/-- The codepoints of `"송도고"`. -/
def songdo : Str := [49569, 46020, 44256]

/-- The codepoints of `"하늘고"`. -/
def haneul : Str := [54616, 45720, 44256]

/-- The codepoints of `"아라고"`. -/
def ara : Str := [50500, 46972, 44256]

/-- The codepoints of `"동산고"`. -/
def dongsan : Str := [46041, 49328, 44256]

/-- `EC_CONDITIONS` (src/main.py:94-99): the fixed school → target-EC
mapping, in its configured order. -/
def EC_CONDITIONS : Dict ℚ := [(songdo, 1), (haneul, 2), (ara, 4), (dongsan, 8)]

/-- One row of the tab-1 overview table (src/main.py:127-137): school
name, EC target, and `len(growth_data.get(school, []))`. -/
def overview_rows (growth_data : Dict GrowthDf) : List (Str × ℚ × Nat) :=
  EC_CONDITIONS.map (fun p => (p.1, p.2, ((dictLookup growth_data p.1).getD []).length))

/-- `df[column].mean()` on a list of cell values: pandas yields `NaN`
(here `none`) on an empty column, otherwise sum over count. -/
def dfMean (xs : List ℚ) : Option ℚ :=
  if xs.length = 0 then none else some (xs.sum / xs.length)

/-- One row of the tab-3 summary table (src/main.py:222-230). -/
structure SummaryRow where
  school : Str
  ec : Option ℚ
  meanWeight : Option ℚ
  count : Nat
deriving DecidableEq

/-- The tab-3 `summary` list (src/main.py:222-230): one row per entry of
`growth_data`, in its iteration order. -/
def summaryRows (growth_data : Dict GrowthDf) : List SummaryRow :=
  growth_data.map (fun p =>
    ⟨p.1, dictLookup EC_CONDITIONS p.1,
      dfMean (p.2.map GrowthRecord.freshWeight), p.2.length⟩)

/-- `Series.idxmax` (src/main.py:232): the position and value of the first
occurrence of the maximum, `NaN` entries skipped; `none` when every entry
is `NaN` (pandas raises there). -/
def idxmaxVal : List (Option ℚ) → Option (Nat × ℚ)
  | [] => none
  | none :: rest => (idxmaxVal rest).map (fun p => (p.1 + 1, p.2))
  | some v :: rest =>
    match idxmaxVal rest with
    | none => some (0, v)
    | some (j, m) => if m ≤ v then some (0, v) else some (j + 1, m)

/-- `best = summary_df.loc[summary_df["평균 생중량"].idxmax()]`
(src/main.py:232): the summary row the metric reports. -/
def bestRow (growth_data : Dict GrowthDf) : Option SummaryRow :=
  match idxmaxVal ((summaryRows growth_data).map SummaryRow.meanWeight) with
  | none => none
  | some p => (summaryRows growth_data).get? p.1

/-! ## The keyword-based File Resolver, modelled from the spec

The spec (§4.2, §9) adopts the keyword+suffix substring matching policy of
the repository's other script variants as the reference resolver; that
variant is not among the staged source files (src/ holds only the
exact-match `find_file_by_normalized_name`), so the resolver is modelled
here from the spec's words. -/

/-- Modelled from the spec: a directory entry as the keyword resolver sees
it — its file name and the name's suffix. -/
structure SpecFile where
  name : Str
  suffix : Str
deriving DecidableEq

/-- Modelled from the spec: the Name Normalizer's output set, "at minimum,
composed and decomposed forms" (§4.1) — the NFC and NFD variants. -/
def specVariants (s : Str) : List Str := [nfc s, nfd s]

/-- `pat` occurs in `hay` as a contiguous substring. -/
def containsSub (pat : Str) : Str → Bool
  | [] => decide (pat = [])
  | c :: rest => pat.isPrefixOf (c :: rest) || containsSub pat rest

/-- Modelled from the spec (§4.2 matching policy): every keyword occurs as
a substring of some normalized variant of the file name, and, when a
suffix is required, the file's suffix equals it case-insensitively. -/
def keywordMatch (keywords : List Str) (suf? : Option Str) (f : SpecFile) : Bool :=
  keywords.all (fun kw => (specVariants f.name).any (fun v => containsSub kw v)) &&
  match suf? with
  | none => true
  | some suf => decide (lowerStr f.suffix = lowerStr suf)

/-- Modelled from the spec (§4.2): the keyword File Resolver — an absent
directory (`none`) is treated as an empty listing; the first matching file
in iteration order is returned, else the explicit no-match signal
`none`. -/
def find_file_by_keywords (dir? : Option (List SpecFile)) (keywords : List Str)
    (suf? : Option Str) : Option SpecFile :=
  (dir?.getD []).find? (keywordMatch keywords suf?)


/-- The set of name variants the program's normalizer produces for an
input: `normalize_text` (src/main.py:35-37) returns a single string, so
the set is that one NFC form. -/
def normalize_variants (s : Str) : List Str := [normalize_text s]

/-- The tie-break rule the spec claims, following its words: among the
Groups whose summary mean equals the reported maximum, the first in the
fixed configured Group ordering (`EC_CONDITIONS`). -/
def bestByConfiguredOrder (growth_data : Dict GrowthDf) : Option Str :=
  match idxmaxVal ((summaryRows growth_data).map SummaryRow.meanWeight) with
  | none => none
  | some p =>
    (EC_CONDITIONS.map Prod.fst).find? (fun s =>
      (summaryRows growth_data).any (fun r =>
        decide (r.school = s) && decide (r.meanWeight = some p.2)))

/-! ## Concrete inputs used by counterexamples and witnesses -/

/-- A growth dict whose sheets arrived in the order 하늘고, 송도고 — the
reverse of the configured order — with both mean fresh weights tied at
5. -/
def tieGrowth : Dict GrowthDf := [(haneul, [⟨3, 100, 5⟩]), (songdo, [⟨4, 120, 5⟩])]

/-- A growth dict holding only 송도고: the other three configured schools
have zero matched records. -/
def loneGrowth : Dict GrowthDf := [(songdo, [⟨5, 100, 12⟩])]

/-- A directory entry whose name is `"송도고_환경데이터.csv"` stored in its
decomposed (NFD) form. -/
def specFile1 : SpecFile := ⟨nfd songdo ++ envMarker ++ csvExt, csvExt⟩

/-! # Theorems -/

/-! ### Composedness of the scan -/

theorem nfcGo_head (l : Str) : ∀ p, ∃ h t,
    nfcGo p l = h :: t ∧ (h = p ∨ 44032 ≤ h) := by
  induction l with
  | nil => intro p; exact ⟨p, [], rfl, Or.inl rfl⟩
  | cons c rest ih =>
    intro p
    by_cases h1 : isL p ∧ isV c
    · obtain ⟨h, t, he, hd⟩ := ih (composeLV p c)
      refine ⟨h, t, by rw [nfcGo, if_pos h1, he], Or.inr ?_⟩
      rcases hd with heq | hge
      · rw [heq]; unfold composeLV; omega
      · exact hge
    · by_cases h2 : isLV p ∧ isT c
      · obtain ⟨h, t, he, hd⟩ := ih (composeLVT p c)
        refine ⟨h, t, by rw [nfcGo, if_neg h1, if_pos h2, he], Or.inr ?_⟩
        rcases hd with heq | hge
        · obtain ⟨⟨hs, _⟩, _⟩ := h2
          rw [heq]; unfold composeLVT; omega
        · exact hge
      · exact ⟨p, nfcGo c rest, by rw [nfcGo, if_neg h1, if_neg h2], Or.inl rfl⟩

/-- A codepoint at or above the syllable block can never stand second in a
canonical composition: it is neither a vowel nor a trailing jamo. -/
theorem no_compose_of_syllable (p h : Nat) (hh : 44032 ≤ h) :
    ¬(isL p ∧ isV h) ∧ ¬(isLV p ∧ isT h) := by
  unfold isL isV isLV isT; omega

theorem nfc_nfcGo (l : Str) : ∀ p, nfc (nfcGo p l) = nfcGo p l := by
  induction l with
  | nil => intro p; rfl
  | cons c rest ih =>
    intro p
    by_cases h1 : isL p ∧ isV c
    · rw [nfcGo, if_pos h1]; exact ih (composeLV p c)
    · by_cases h2 : isLV p ∧ isT c
      · rw [nfcGo, if_neg h1, if_pos h2]
        exact ih (composeLVT p c)
      · rw [nfcGo, if_neg h1, if_neg h2]
        obtain ⟨h, t, he, hd⟩ := nfcGo_head rest c
        have hno : ¬(isL p ∧ isV h) ∧ ¬(isLV p ∧ isT h) := by
          rcases hd with heq | hge
          · rw [heq]; exact ⟨h1, h2⟩
          · exact no_compose_of_syllable p h hge
        have htail : nfcGo h t = h :: t := by
          have hx := ih c
          rw [he] at hx
          exact hx
        calc nfc (p :: nfcGo c rest)
            = nfcGo p (nfcGo c rest) := rfl
          _ = nfcGo p (h :: t) := by rw [he]
          _ = p :: nfcGo h t := by rw [nfcGo, if_neg hno.1, if_neg hno.2]
          _ = p :: h :: t := by rw [htail]
          _ = p :: nfcGo c rest := by rw [he]

/-- NFC is idempotent on the modelled fragment. -/
theorem nfc_idem (s : Str) : nfc (nfc s) = nfc s := by
  cases s with
  | nil => rfl
  | cons c rest => exact nfc_nfcGo rest c

/-! ### Dictionary and loader lemmas -/

theorem dictInsert_ne_nil {α : Type} (d : Dict α) (k : Str) (v : α) :
    dictInsert d k v ≠ [] := by
  cases d with
  | nil => simp [dictInsert]
  | cons p rest =>
    obtain ⟨k', v'⟩ := p
    by_cases h : k' = k <;> simp [dictInsert, h]

theorem dictInsert_mem {α : Type} (d : Dict α) (k : Str) (v : α) (p : Str × α)
    (hp : p ∈ dictInsert d k v) : p.1 = k ∨ p ∈ d := by
  induction d with
  | nil =>
    simp [dictInsert] at hp
    left; rw [hp]
  | cons q rest ih =>
    obtain ⟨k', v'⟩ := q
    by_cases h : k' = k
    · rw [dictInsert, if_pos h] at hp
      rcases List.mem_cons.mp hp with heq | hmem
      · left; rw [heq]
      · right; exact List.mem_cons_of_mem _ hmem
    · rw [dictInsert, if_neg h] at hp
      rcases List.mem_cons.mp hp with heq | hmem
      · right; rw [heq]; exact List.mem_cons_self _ _
      · rcases ih hmem with hk | hmem2
        · left; exact hk
        · right; exact List.mem_cons_of_mem _ hmem2

theorem envLoadGo_fst_nil_iff (files : List DirFile) : ∀ acc errs,
    (envLoadGo acc errs files).1 = [] ↔
      (acc = [] ∧ ∀ f ∈ files, isCsvFile f = true → f.asCsv = none) := by
  induction files with
  | nil => intro acc errs; simp [envLoadGo]
  | cons f rest ih =>
    intro acc errs
    by_cases hc : isCsvFile f
    · cases hcsv : f.asCsv with
      | some df =>
        rw [envLoadGo, if_pos hc, hcsv]
        rw [ih]
        constructor
        · rintro ⟨habs, -⟩
          exact absurd habs (dictInsert_ne_nil acc (envKey f) df)
        · rintro ⟨-, hall⟩
          have := hall f (List.mem_cons_self _ _) hc
          rw [hcsv] at this
          cases this
      | none =>
        rw [envLoadGo, if_pos hc, hcsv, ih]
        constructor
        · rintro ⟨hacc, hall⟩
          refine ⟨hacc, ?_⟩
          intro g hg hgc
          rcases List.mem_cons.mp hg with heq | hmem
          · rw [heq]; exact hcsv
          · exact hall g hmem hgc
        · rintro ⟨hacc, hall⟩
          exact ⟨hacc, fun g hg hgc => hall g (List.mem_cons_of_mem _ hg) hgc⟩
    · rw [envLoadGo, if_neg hc, ih]
      constructor
      · rintro ⟨hacc, hall⟩
        refine ⟨hacc, ?_⟩
        intro g hg hgc
        rcases List.mem_cons.mp hg with heq | hmem
        · rw [heq] at hgc; exact absurd hgc hc
        · exact hall g hmem hgc
      · rintro ⟨hacc, hall⟩
        exact ⟨hacc, fun g hg hgc => hall g (List.mem_cons_of_mem _ hg) hgc⟩

theorem envLoadGo_snd (files : List DirFile) : ∀ acc errs,
    (envLoadGo acc errs files).2 =
      errs ++ (files.filter (fun f => isCsvFile f && f.asCsv.isNone)).map fileName := by
  induction files with
  | nil => intro acc errs; simp [envLoadGo]
  | cons f rest ih =>
    intro acc errs
    by_cases hc : isCsvFile f
    · cases hcsv : f.asCsv with
      | some df =>
        rw [envLoadGo, if_pos hc, hcsv, ih]
        simp [List.filter_cons, hc, hcsv]
      | none =>
        rw [envLoadGo, if_pos hc, hcsv, ih]
        simp [List.filter_cons, hc, hcsv]
    · rw [envLoadGo, if_neg hc, ih]
      simp [List.filter_cons, hc]

theorem envLoadGo_fst_filter (files : List DirFile) : ∀ acc errs errs2,
    (envLoadGo acc errs files).1 =
      (envLoadGo acc errs2 (files.filter (fun f => !(isCsvFile f && f.asCsv.isNone)))).1 := by
  induction files with
  | nil => intro acc errs errs2; simp [envLoadGo]
  | cons f rest ih =>
    intro acc errs errs2
    by_cases hc : isCsvFile f
    · cases hcsv : f.asCsv with
      | some df =>
        have hfc : List.filter (fun f => !(isCsvFile f && f.asCsv.isNone)) (f :: rest)
            = f :: List.filter (fun f => !(isCsvFile f && f.asCsv.isNone)) rest := by
          simp [List.filter_cons, hc, hcsv]
        rw [envLoadGo, if_pos hc, hcsv, hfc, envLoadGo, if_pos hc, hcsv]
        exact ih _ _ _
      | none =>
        have hfc : List.filter (fun f => !(isCsvFile f && f.asCsv.isNone)) (f :: rest)
            = List.filter (fun f => !(isCsvFile f && f.asCsv.isNone)) rest := by
          simp [List.filter_cons, hc, hcsv]
        rw [envLoadGo, if_pos hc, hcsv, hfc]
        exact ih _ _ _
    · have hfc : List.filter (fun f => !(isCsvFile f && f.asCsv.isNone)) (f :: rest)
          = f :: List.filter (fun f => !(isCsvFile f && f.asCsv.isNone)) rest := by
        simp [List.filter_cons, hc]
      rw [envLoadGo, if_neg hc, hfc, envLoadGo, if_neg hc]
      exact ih _ _ _

theorem readSheetsGo_eq_none_iff (sheets : List (Str × Option GrowthDf)) : ∀ acc,
    readSheetsGo acc sheets = none ↔ ∃ p ∈ sheets, p.2 = none := by
  induction sheets with
  | nil => intro acc; simp [readSheetsGo]
  | cons s rest ih =>
    intro acc
    obtain ⟨name, df?⟩ := s
    cases df? with
    | none => simp [readSheetsGo]
    | some df => simp [readSheetsGo, ih]

theorem readSheetsGo_keys (sheets : List (Str × Option GrowthDf)) : ∀ acc d,
    (∀ p ∈ acc, normalize_text p.1 = p.1) →
    readSheetsGo acc sheets = some d → ∀ p ∈ d, normalize_text p.1 = p.1 := by
  induction sheets with
  | nil =>
    intro acc d hacc h
    rw [readSheetsGo] at h
    cases h
    exact hacc
  | cons s rest ih =>
    intro acc d hacc h
    obtain ⟨name, df?⟩ := s
    cases df? with
    | none => rw [readSheetsGo] at h; cases h
    | some df =>
      rw [readSheetsGo] at h
      refine ih _ d ?_ h
      intro p hp
      rcases dictInsert_mem _ _ _ p hp with hk | hmem
      · rw [hk]
        exact nfc_idem name
      · exact hacc p hmem

/-! ### Extremum-selection lemmas -/

theorem idxmaxVal_eq_none_iff (l : List (Option ℚ)) :
    idxmaxVal l = none ↔ ∀ x ∈ l, x = none := by
  induction l with
  | nil => simp [idxmaxVal]
  | cons x rest ih =>
    cases x with
    | none => simp [idxmaxVal, ih]
    | some v =>
      simp only [idxmaxVal]
      cases hr : idxmaxVal rest with
      | none => simp
      | some p =>
        obtain ⟨j, m⟩ := p
        by_cases hle : m ≤ v <;> simp [hle]

theorem idxmaxVal_get (l : List (Option ℚ)) : ∀ j m,
    idxmaxVal l = some (j, m) → l.get? j = some (some m) := by
  induction l with
  | nil => intro j m h; cases h
  | cons x rest ih =>
    intro j m h
    cases x with
    | none =>
      rw [idxmaxVal] at h
      cases hr : idxmaxVal rest with
      | none => rw [hr] at h; cases h
      | some p =>
        obtain ⟨j', m'⟩ := p
        rw [hr] at h
        simp only [Option.map_some'] at h
        cases h
        simpa using ih _ _ hr
    | some v =>
      rw [idxmaxVal] at h
      cases hr : idxmaxVal rest with
      | none =>
        rw [hr] at h
        cases h
        rfl
      | some p =>
        obtain ⟨j', m'⟩ := p
        rw [hr] at h
        dsimp only at h
        by_cases hle : m' ≤ v
        · rw [if_pos hle] at h
          cases h
          rfl
        · rw [if_neg hle] at h
          cases h
          simpa using ih j' m hr

theorem idxmaxVal_le (l : List (Option ℚ)) : ∀ j m,
    idxmaxVal l = some (j, m) → ∀ k v, l.get? k = some (some v) → v ≤ m := by
  induction l with
  | nil => intro j m h; cases h
  | cons x rest ih =>
    intro j m h k v hk
    cases x with
    | none =>
      rw [idxmaxVal] at h
      cases hr : idxmaxVal rest with
      | none => rw [hr] at h; cases h
      | some p =>
        obtain ⟨j', m'⟩ := p
        rw [hr] at h
        simp only [Option.map_some'] at h
        cases h
        cases k with
        | zero => simp at hk
        | succ k2 => exact ih j' m hr k2 v (by simpa using hk)
    | some w =>
      rw [idxmaxVal] at h
      cases hr : idxmaxVal rest with
      | none =>
        rw [hr] at h
        cases h
        cases k with
        | zero =>
          simp at hk
          rw [hk]
        | succ k2 =>
          have hall := (idxmaxVal_eq_none_iff rest).mp hr
          have hmem : some v ∈ rest := List.get?_mem (by simpa using hk)
          cases hall _ hmem
      | some p =>
        obtain ⟨j', m'⟩ := p
        rw [hr] at h
        dsimp only at h
        by_cases hle : m' ≤ w
        · rw [if_pos hle] at h
          cases h
          cases k with
          | zero => simp at hk; rw [hk]
          | succ k2 => exact le_trans (ih j' m' hr k2 v (by simpa using hk)) hle
        · rw [if_neg hle] at h
          cases h
          cases k with
          | zero =>
            simp at hk
            rw [hk] at hle
            exact le_of_not_le hle
          | succ k2 => exact ih j' m hr k2 v (by simpa using hk)

theorem idxmaxVal_first (l : List (Option ℚ)) : ∀ j m,
    idxmaxVal l = some (j, m) → ∀ k, k < j → ∀ v, l.get? k = some (some v) → v < m := by
  induction l with
  | nil => intro j m h; cases h
  | cons x rest ih =>
    intro j m h k hk v hkv
    cases x with
    | none =>
      rw [idxmaxVal] at h
      cases hr : idxmaxVal rest with
      | none => rw [hr] at h; cases h
      | some p =>
        obtain ⟨j', m'⟩ := p
        rw [hr] at h
        simp only [Option.map_some'] at h
        cases h
        cases k with
        | zero => simp at hkv
        | succ k2 => exact ih j' m hr k2 (Nat.lt_of_succ_lt_succ hk) v (by simpa using hkv)
    | some w =>
      rw [idxmaxVal] at h
      cases hr : idxmaxVal rest with
      | none =>
        rw [hr] at h
        cases h
        cases hk
      | some p =>
        obtain ⟨j', m'⟩ := p
        rw [hr] at h
        dsimp only at h
        by_cases hle : m' ≤ w
        · rw [if_pos hle] at h
          cases h
          cases hk
        · rw [if_neg hle] at h
          cases h
          cases k with
          | zero =>
            simp at hkv
            rw [hkv] at hle
            exact lt_of_not_le hle
          | succ k2 => exact ih j' m hr k2 (Nat.lt_of_succ_lt_succ hk) v (by simpa using hkv)

/-! ### Mean and matching lemmas -/

theorem dfMean_perm (xs ys : List ℚ) (h : xs.Perm ys) : dfMean xs = dfMean ys := by
  unfold dfMean
  rw [h.length_eq, h.sum_eq]

theorem keywordMatch_eq_true_iff (keywords : List Str) (suf? : Option Str) (f : SpecFile) :
    keywordMatch keywords suf? f = true ↔
      ((∀ kw ∈ keywords, ∃ v ∈ specVariants f.name, containsSub kw v = true) ∧
       (∀ s, suf? = some s → lowerStr f.suffix = lowerStr s)) := by
  cases suf? with
  | none => simp [keywordMatch, List.all_eq_true, List.any_eq_true]
  | some s => simp [keywordMatch, List.all_eq_true, List.any_eq_true]

theorem load_growth_data_eq_none_iff (files : List DirFile) :
    load_growth_data files = none ↔
      (files.find? isXlsxFile = none ∨
       ∃ f, files.find? isXlsxFile = some f ∧
         (f.asXlsx = none ∨
          ∃ sheets, f.asXlsx = some sheets ∧ ∃ p ∈ sheets, p.2 = none)) := by
  unfold load_growth_data
  cases hf : files.find? isXlsxFile with
  | none => simp
  | some f =>
    cases hx : f.asXlsx with
    | none => simp [hx]
    | some sheets =>
      dsimp only
      rw [hx]
      dsimp only
      rw [readSheetsGo_eq_none_iff sheets []]
      simp [hx]

/-! ## The claims -/

/-- C1 (spec-modelled): for every directory and non-empty keyword list,
with an optional suffix, the keyword File Resolver returns a file exactly
when some file of the directory satisfies the matching policy — every
keyword contained as a substring in at least one normalized variant of the
file name and, when a suffix is specified, the file's suffix equal to it
case-insensitively — and any file it returns satisfies that policy
itself. -/
theorem resolver_keyword_matching_policy (dir? : Option (List SpecFile))
    (keywords : List Str) (suf? : Option Str) (hk : keywords ≠ []) :
    (∀ f, find_file_by_keywords dir? keywords suf? = some f →
      ((∀ kw ∈ keywords, ∃ v ∈ specVariants f.name, containsSub kw v = true) ∧
       (∀ s, suf? = some s → lowerStr f.suffix = lowerStr s))) ∧
    ((find_file_by_keywords dir? keywords suf?).isSome ↔
      ∃ f ∈ dir?.getD [],
        ((∀ kw ∈ keywords, ∃ v ∈ specVariants f.name, containsSub kw v = true) ∧
         (∀ s, suf? = some s → lowerStr f.suffix = lowerStr s))) := by
  constructor
  · intro f hf
    exact (keywordMatch_eq_true_iff keywords suf? f).mp (List.find?_some hf)
  · unfold find_file_by_keywords
    rw [List.find?_isSome]
    constructor
    · rintro ⟨f, hmem, hmatch⟩
      exact ⟨f, hmem, (keywordMatch_eq_true_iff keywords suf? f).mp hmatch⟩
    · rintro ⟨f, hmem, hprop⟩
      exact ⟨f, hmem, (keywordMatch_eq_true_iff keywords suf? f).mpr hprop⟩

/-- Witness for C1: over a concrete one-file directory, the NFD-stored
file `"송도고_환경데이터.csv"` is found by the NFC keyword 송도고 with
required suffix `.csv`. -/
theorem resolver_keyword_matching_policy_witness :
    (find_file_by_keywords (some [specFile1]) [songdo] (some csvExt)).isSome :=
  ((resolver_keyword_matching_policy (some [specFile1]) [songdo] (some csvExt)
    (by decide)).2).mpr ⟨specFile1, by decide, by decide, by decide⟩

/-- C8 (spec-modelled): the keyword File Resolver is total — when no file
of the directory satisfies the matching policy it returns the explicit
no-match signal `none` rather than raising, and an absent directory gives
the same empty result rather than a fatal error at this layer. -/
theorem resolver_totality (files : List SpecFile) (keywords : List Str)
    (suf? : Option Str)
    (h : ∀ f ∈ files,
      ¬((∀ kw ∈ keywords, ∃ v ∈ specVariants f.name, containsSub kw v = true) ∧
        (∀ s, suf? = some s → lowerStr f.suffix = lowerStr s))) :
    find_file_by_keywords (some files) keywords suf? = none ∧
    find_file_by_keywords none keywords suf? = none := by
  constructor
  · unfold find_file_by_keywords
    rw [List.find?_eq_none]
    intro f hf hmatch
    exact h f hf ((keywordMatch_eq_true_iff keywords suf? f).mp hmatch)
  · rfl

/-- Witness for C8: the keyword 동산고 matches nothing in a concrete
directory, and the resolver answers `none` there and on the absent
directory. -/
theorem resolver_totality_witness :
    find_file_by_keywords (some [specFile1]) [dongsan] none = none ∧
    find_file_by_keywords none [dongsan] none = none :=
  resolver_totality [specFile1] [dongsan] none (by decide)

/-- C4 as stated is false at the input 송 (U+C1A1): `normalize_text`
produces a single variant and the decomposed (NFD) form is not among the
produced variants. -/
theorem normalizer_no_nfd_variant :
    normalize_variants [49569] = [[49569]] ∧
    nfd [49569] = [4361, 4457, 4540] ∧
    nfd [49569] ∉ normalize_variants [49569] := by decide

/-- C4 amended: for every input string the normalizer produces exactly one
canonical form — the composed (NFC) form, already fully composed — and
never fails: it always yields that one variant, and the empty string
normalizes to itself. -/
theorem normalizer_single_nfc_form (s : Str) :
    normalize_variants s = [normalize_text s] ∧
    normalize_variants s ≠ [] ∧
    nfc (normalize_text s) = normalize_text s ∧
    normalize_text [] = [] :=
  ⟨rfl, by simp [normalize_variants], nfc_idem s, rfl⟩

/-- C5: file resolution is invariant under Unicode renormalization of the
target name — resolving a target and resolving any canonically equivalent
spelling of it (a spelling with the same NFC form, e.g. its NFD form) over
the same directory return the same result: the same file, or both not
found. -/
theorem findFile_normalization_invariant (directory : List Str) (t t' : Str)
    (h : normalize_text t' = normalize_text t) :
    find_file_by_normalized_name directory t' =
      find_file_by_normalized_name directory t := by
  unfold find_file_by_normalized_name
  rw [h]

/-- Witness for C5: over a concrete directory, the NFD spelling of 송
resolves to the same file as its NFC spelling. -/
theorem findFile_normalization_invariant_witness :
    normalize_text [4361, 4457, 4540] = normalize_text [49569] ∧
    find_file_by_normalized_name [[97], [49569]] [4361, 4457, 4540] =
      find_file_by_normalized_name [[97], [49569]] [49569] :=
  ⟨by decide,
    findFile_normalization_invariant [[97], [49569]] [4361, 4457, 4540] [49569] (by decide)⟩

/-- C2: startup is fail-fast — after loading, the dashboard halts (shows
the load error and renders nothing further) exactly when no environment
CSV parses successfully or the growth load yields no data, where the
growth load yields no data exactly when the spreadsheet is missing
(no `.xlsx` file), unopenable, or has a sheet that fails to parse; when at
least one environment dataset and the growth data both load, startup
proceeds with them. -/
theorem startup_fail_fast (files : List DirFile) :
    (startup files = none ↔
      ((∀ f ∈ files, isCsvFile f = true → f.asCsv = none) ∨
        load_growth_data files = none)) ∧
    (load_growth_data files = none ↔
      (files.find? isXlsxFile = none ∨
       ∃ f, files.find? isXlsxFile = some f ∧
         (f.asXlsx = none ∨
          ∃ sheets, f.asXlsx = some sheets ∧ ∃ p ∈ sheets, p.2 = none))) := by
  refine ⟨?_, load_growth_data_eq_none_iff files⟩
  have henv : (load_environment_data files).1 = [] ↔
      (∀ f ∈ files, isCsvFile f = true → f.asCsv = none) := by
    simpa [load_environment_data] using envLoadGo_fst_nil_iff files [] []
  unfold startup
  cases hg : load_growth_data files with
  | none => simp
  | some g =>
    dsimp only
    by_cases he : (load_environment_data files).1 = []
    · rw [if_pos he]
      exact ⟨fun _ => Or.inl (henv.mp he), fun _ => rfl⟩
    · rw [if_neg he]
      constructor
      · intro hco
        cases hco
      · rintro (hall | hnone)
        · exact absurd (henv.mpr hall) he
        · cases hnone

/-- C3: failure granularity is asymmetric — the environment loader's error
reports are exactly the names of the `.csv` files whose parse raises, and
dropping those failing files leaves the loaded environment dict unchanged
(other Groups still load); the growth loader, by contrast, returns the
no-data signal `None`, never a partial dict, as soon as any sheet read of
its spreadsheet raises. -/
theorem failure_granularity (files : List DirFile)
    (sheets : List (Str × Option GrowthDf)) :
    ((load_environment_data files).2 =
      (files.filter (fun f => isCsvFile f && f.asCsv.isNone)).map fileName) ∧
    ((load_environment_data files).1 =
      (load_environment_data
        (files.filter (fun f => !(isCsvFile f && f.asCsv.isNone)))).1) ∧
    (readSheetsGo [] sheets = none ↔ ∃ p ∈ sheets, p.2 = none) ∧
    (∀ f, files.find? isXlsxFile = some f → f.asXlsx = some sheets →
      (load_growth_data files = none ↔ ∃ p ∈ sheets, p.2 = none)) := by
  refine ⟨?_, ?_, readSheetsGo_eq_none_iff sheets [], ?_⟩
  · simpa [load_environment_data] using envLoadGo_snd files [] []
  · simpa [load_environment_data] using envLoadGo_fst_filter files [] [] []
  · intro f hf hx
    unfold load_growth_data
    rw [hf]
    dsimp only
    rw [hx]
    dsimp only
    exact readSheetsGo_eq_none_iff sheets []

theorem summaryRows_tieGrowth :
    summaryRows tieGrowth =
      [⟨haneul, some 2, some 5, 1⟩, ⟨songdo, some 1, some 5, 1⟩] := by
  norm_num [summaryRows, tieGrowth, dictLookup, EC_CONDITIONS, dfMean, List.find?,
    songdo, haneul, ara, dongsan]

theorem idxmaxVal_tieGrowth :
    idxmaxVal ((summaryRows tieGrowth).map SummaryRow.meanWeight) = some (0, 5) := by
  rw [summaryRows_tieGrowth]
  norm_num [idxmaxVal]

/-- C6 as stated is false at a concrete tie: over `tieGrowth`, whose
sheets arrived in the order 하늘고, 송도고 with both mean fresh weights
exactly 5, the reported best Group is 하늘고 — the first in sheet order —
while the first in the fixed configured ordering (`EC_CONDITIONS`, 송도고
first) sharing the maximum is 송도고. -/
theorem best_tie_not_configured_order :
    (bestRow tieGrowth).map SummaryRow.school = some haneul ∧
    (summaryRows tieGrowth).map SummaryRow.meanWeight = [some 5, some 5] ∧
    EC_CONDITIONS.map Prod.fst = [songdo, haneul, ara, dongsan] ∧
    bestByConfiguredOrder tieGrowth = some songdo ∧
    haneul ≠ songdo := by
  refine ⟨?_, ?_, by decide, ?_, by decide⟩
  · unfold bestRow
    rw [idxmaxVal_tieGrowth, summaryRows_tieGrowth]
    rfl
  · rw [summaryRows_tieGrowth]
    rfl
  · unfold bestByConfiguredOrder
    rw [idxmaxVal_tieGrowth, summaryRows_tieGrowth]
    norm_num [EC_CONDITIONS, List.find?, songdo, haneul, ara, dongsan]

/-- C6 amended: the Aggregator reports the Group with the maximum mean
fresh weight, and whenever several Groups share that maximum exactly the
reported Group is the first in growth-data iteration order (the
spreadsheet's sheet order) — not the configured Group ordering: the
reported row sits at the first summary position attaining the maximum. -/
theorem best_is_first_max_in_sheet_order (growth_data : Dict GrowthDf)
    (j : Nat) (m : ℚ)
    (h : idxmaxVal ((summaryRows growth_data).map SummaryRow.meanWeight) = some (j, m)) :
    bestRow growth_data = (summaryRows growth_data).get? j ∧
    ((summaryRows growth_data).map SummaryRow.meanWeight).get? j = some (some m) ∧
    (∀ k v, ((summaryRows growth_data).map SummaryRow.meanWeight).get? k =
      some (some v) → v ≤ m) ∧
    (∀ k, k < j → ∀ v, ((summaryRows growth_data).map SummaryRow.meanWeight).get? k =
      some (some v) → v < m) := by
  refine ⟨?_, idxmaxVal_get _ _ _ h, idxmaxVal_le _ _ _ h, idxmaxVal_first _ _ _ h⟩
  unfold bestRow
  rw [h]

/-- Witness for the amended C6 at `tieGrowth`: the reported row is the
first summary row. -/
theorem best_is_first_max_in_sheet_order_witness :
    bestRow tieGrowth = (summaryRows tieGrowth).get? 0 :=
  (best_is_first_max_in_sheet_order tieGrowth 0 5 idxmaxVal_tieGrowth).1

/-- C7 as stated is false in the overview table: over `loneGrowth` the
Group 동산고 has zero matched records, yet the tab-1 overview reports it —
present, with its count defaulted to 0 — rather than absent. -/
theorem absent_group_counted_zero :
    dictLookup loneGrowth dongsan = none ∧
    (dongsan, (8 : ℚ), 0) ∈ overview_rows loneGrowth := by decide

/-- C7 amended: a Group with zero matched records is absent from the
per-Group growth summary, and a mean over zero records is reported as the
missing value (`NaN`), never defaulted to 0; the tab-1 overview table,
however, lists every configured Group and shows count 0 for a Group with
no matched records. -/
theorem zero_record_group_reporting (growth_data : Dict GrowthDf) :
    ((summaryRows growth_data).map SummaryRow.school = growth_data.map Prod.fst) ∧
    dfMean [] = none ∧
    (∀ r ∈ summaryRows growth_data, r.count = 0 → r.meanWeight = none) ∧
    ((overview_rows growth_data).map Prod.fst = EC_CONDITIONS.map Prod.fst) ∧
    (∀ p ∈ EC_CONDITIONS, dictLookup growth_data p.1 = none →
      (p.1, p.2, 0) ∈ overview_rows growth_data) := by
  refine ⟨?_, rfl, ?_, ?_, ?_⟩
  · unfold summaryRows
    rw [List.map_map]
    rfl
  · intro r hr hc
    unfold summaryRows at hr
    obtain ⟨p, hp, hpr⟩ := List.mem_map.mp hr
    rw [← hpr] at hc ⊢
    dsimp only at hc ⊢
    rw [List.length_eq_zero.mp hc]
    rfl
  · unfold overview_rows
    rw [List.map_map]
    rfl
  · intro p hp hnone
    unfold overview_rows
    apply List.mem_map.mpr
    refine ⟨p, hp, ?_⟩
    rw [hnone]
    rfl

/-- C9: the Aggregator's per-Group means are order-invariant — replacing
every Group's record list by any permutation of it leaves the whole
summary (school, EC, mean fresh weight, count) unchanged, the mean being
sum/count-based. -/
theorem summary_mean_perm_invariant (g g2 : Dict GrowthDf)
    (h : List.Forall₂ (fun a b => a.1 = b.1 ∧ a.2.Perm b.2) g g2) :
    summaryRows g = summaryRows g2 := by
  induction h with
  | nil => rfl
  | @cons a b l1 l2 hab hrest ih =>
    obtain ⟨hkey, hperm⟩ := hab
    simp only [summaryRows, List.map_cons] at ih ⊢
    rw [hkey, dfMean_perm _ _ (hperm.map GrowthRecord.freshWeight), hperm.length_eq, ih]

/-- Witness for C9: swapping the two records of a concrete Group leaves
its summary unchanged. -/
theorem summary_mean_perm_invariant_witness :
    summaryRows [(songdo, [⟨1, 2, 3⟩, ⟨4, 5, 6⟩])] =
      summaryRows [(songdo, [⟨4, 5, 6⟩, ⟨1, 2, 3⟩])] :=
  summary_mean_perm_invariant _ _
    (List.Forall₂.cons ⟨rfl, List.Perm.swap _ _ _⟩ List.Forall₂.nil)

/-- C10: text normalization is idempotent — renormalizing a normalizer
output changes nothing — and consequently every school/sheet-name key
stored in the loaded growth dict is already in canonical form, so
renormalizing it at lookup time is the identity. -/
theorem normalize_idempotent_keys_canonical :
    (∀ s : Str, normalize_text (normalize_text s) = normalize_text s) ∧
    (∀ files d, load_growth_data files = some d →
      ∀ p ∈ d, normalize_text p.1 = p.1) := by
  refine ⟨fun s => nfc_idem s, ?_⟩
  intro files d hload p hp
  unfold load_growth_data at hload
  cases hf : files.find? isXlsxFile with
  | none => rw [hf] at hload; cases hload
  | some f =>
    rw [hf] at hload
    dsimp only at hload
    cases hx : f.asXlsx with
    | none => rw [hx] at hload; cases hload
    | some sheets =>
      rw [hx] at hload
      dsimp only at hload
      refine readSheetsGo_keys sheets [] d ?_ hload p hp
      intro q hq
      cases hq
